import Mathlib

/-!
Verification of the PictureFrame image ingestion and ordering engine.

Shallow embedding of the core components:
* `ImageProcessor.process_image` / `_resize_with_aspect_ratio` (src/image_processor.py)
* `PlaylistManager._get_sort_key` / `_add_to_playlist` / `rebuild_playlist` /
  `get_playlist` (src/playlist_manager.py)
* `Slideshow.get_current_image` / `next_image` / `previous_image` / `refresh` /
  `_refresh_image_list` (src/slideshow.py)
* `WebInterface._schedule_processing` / `_process_upload_queue`
  (src/web_interface.py)

Filesystem effects are made explicit: the set of proxy artifact files is a
list of hash stems, file modification times are a function on stems, and each
persisted JSON file is a `FileState` (missing / unparsable / parsed content).
Timestamps (Python floats) are modelled as integers.
-/

/-- State of a persisted JSON file: absent, present but unparsable, or parsed. -/
inductive FileState (α : Type) where
  | missing
  | malformed
  | wellFormed (content : α)
deriving DecidableEq

/-- One element of a playlist JSON file: `{'hash': ..., 'sort_key': ...}`
(src/playlist_manager.py lines 103-106). -/
structure OrderEntry where
  hash : String
  sort_key : Int
deriving DecidableEq, Repr

/-- The filesystem facts `PlaylistManager` consults: the stems of the `*.jpg`
proxy files in `proxy_dir`, their modification times (`os.path.getmtime`),
the EXIF date stored for a hash in `metadata.json` (already folded through
file existence and JSON parsing), and Python's `hash()` on strings. -/
structure FS where
  artifacts : List String
  mtime : String → Int
  exifDate : String → Option Int
  pyHash : String → Int

/-- `PlaylistManager._get_sort_key` (src/playlist_manager.py lines 28-70).
For `transfer_time` the proxy file's mtime (0 if the file is gone); for
`creation_time` the EXIF date from the metadata file, falling back to the
mtime; otherwise (including `random`) Python's string hash. -/
def getSortKey (fs : FS) (image_hash : String) (sort_by : String) : Int :=
  if sort_by = "transfer_time" then
    if image_hash ∈ fs.artifacts then fs.mtime image_hash else 0
  else if sort_by = "creation_time" then
    match fs.exifDate image_hash with
    | some d => d
    | none => if image_hash ∈ fs.artifacts then fs.mtime image_hash else 0
  else
    fs.pyHash image_hash

/-- Insert an entry into a list already sorted descending by `sort_key`,
keeping it after existing entries with an equal or larger key (stable). -/
def insertDesc (e : OrderEntry) : List OrderEntry → List OrderEntry
  | [] => [e]
  | x :: xs => if e.sort_key ≤ x.sort_key then x :: insertDesc e xs else e :: x :: xs

/-- `playlist.sort(key=lambda x: x['sort_key'], reverse=True)`: a stable sort
descending by `sort_key`, modelled as insertion sort. -/
def sortDesc : List OrderEntry → List OrderEntry
  | [] => []
  | x :: xs => insertDesc x (sortDesc xs)

/-- Reading a playlist file at the top of `_add_to_playlist`
(src/playlist_manager.py lines 85-93): a missing or unparsable file yields
the empty playlist. -/
def loadedPlaylist (file : FileState (List OrderEntry)) : List OrderEntry :=
  match file with
  | .wellFormed l => l
  | _ => []

/-- The hash column of a playlist. -/
def plHashes (l : List OrderEntry) : List String := l.map (·.hash)

/-- `PlaylistManager._add_to_playlist` (src/playlist_manager.py lines 81-120),
returning the resulting playlist-file content. If the hash is already present
the function returns without modifying the file; otherwise the entry is
appended and, for non-random policies, the whole list is re-sorted descending
by `sort_key` before being persisted. -/
def addToPlaylist (fs : FS) (image_hash : String) (sort_by : String)
    (file : FileState (List OrderEntry)) : List OrderEntry :=
  let playlist := loadedPlaylist file
  if playlist.any (fun item => item.hash = image_hash) then
    playlist
  else
    let entry : OrderEntry := { hash := image_hash, sort_key := getSortKey fs image_hash sort_by }
    let playlist := playlist ++ [entry]
    if sort_by = "random" then playlist else sortDesc playlist

/-- Whether `_add_to_playlist` reaches its `json.dump` (it returns early,
before writing, when the hash is already present): 1 write or 0. -/
def addToPlaylistWrites (image_hash : String) (file : FileState (List OrderEntry)) : Nat :=
  if (loadedPlaylist file).any (fun item => item.hash = image_hash) then 0 else 1

/-- `PlaylistManager.rebuild_playlist` (src/playlist_manager.py lines 139-169):
one entry per existing `*.jpg` proxy file, shuffled for the random policy and
sorted descending by `sort_key` otherwise. `shuffle` stands for
`random.shuffle` and is constrained to a permutation in the theorems. -/
def rebuildPlaylist (shuffle : List OrderEntry → List OrderEntry) (fs : FS)
    (sort_by : String) : List OrderEntry :=
  let playlist := fs.artifacts.map
    (fun image_hash => OrderEntry.mk image_hash (getSortKey fs image_hash sort_by))
  if sort_by = "random" then shuffle playlist else sortDesc playlist

/-- `[item.get('hash') for item in playlist if item.get('hash')]`
(src/playlist_manager.py line 184): keep truthy (non-empty) hashes. -/
def extractHashes (playlist : List OrderEntry) : List String :=
  (playlist.filter (fun item => item.hash ≠ "")).map (·.hash)

/-- `PlaylistManager.get_playlist` (src/playlist_manager.py lines 171-189).
A missing file is rebuilt before reading; an unparsable file raises inside
`json.load`, is rebuilt in the handler, and the recursive call then reads the
freshly rebuilt (well-formed) file. Either way a broken file resolves to the
rebuilt content. -/
def getPlaylist (shuffle : List OrderEntry → List OrderEntry) (fs : FS)
    (sort_by : String) (file : FileState (List OrderEntry)) : List String :=
  match file with
  | .wellFormed l => extractHashes l
  | _ => extractHashes (rebuildPlaylist shuffle fs sort_by)

theorem insertDesc_perm (e : OrderEntry) (l : List OrderEntry) :
    List.Perm (insertDesc e l) (e :: l) := by
  induction l with
  | nil => simp [insertDesc]
  | cons x xs ih =>
    by_cases h : e.sort_key ≤ x.sort_key
    · simp only [insertDesc, if_pos h]
      exact ((ih.cons x).trans (List.Perm.swap e x xs))
    · simp [insertDesc, if_neg h]

theorem sortDesc_perm (l : List OrderEntry) : List.Perm (sortDesc l) l := by
  induction l with
  | nil => simp [sortDesc]
  | cons x xs ih =>
    exact (insertDesc_perm x (sortDesc xs)).trans (ih.cons x)

/-- Descending order on entries. -/
def keyGE (a b : OrderEntry) : Prop := b.sort_key ≤ a.sort_key

theorem insertDesc_sorted {l : List OrderEntry} (e : OrderEntry)
    (h : l.Pairwise keyGE) : (insertDesc e l).Pairwise keyGE := by
  induction l with
  | nil => simp [insertDesc, keyGE]
  | cons x xs ih =>
    rcases List.pairwise_cons.mp h with ⟨hx, hxs⟩
    by_cases hle : e.sort_key ≤ x.sort_key
    · simp only [insertDesc, if_pos hle]
      refine List.pairwise_cons.mpr ⟨?_, ih hxs⟩
      intro y hy
      rcases List.mem_cons.mp ((insertDesc_perm e xs).mem_iff.mp hy) with hy | hy
      · subst hy; exact hle
      · exact hx y hy
    · simp only [insertDesc, if_neg hle]
      refine List.pairwise_cons.mpr ⟨?_, h⟩
      intro y hy
      rcases List.mem_cons.mp hy with hy | hy
      · subst hy; exact le_of_lt (lt_of_not_le hle)
      · exact le_trans (hx y hy) (le_of_lt (lt_of_not_le hle))

theorem sortDesc_sorted (l : List OrderEntry) : (sortDesc l).Pairwise keyGE := by
  induction l with
  | nil => simp [sortDesc]
  | cons x xs ih => exact insertDesc_sorted x ih

/-!
### Slideshow (PlaylistCursor), src/slideshow.py

`images` holds the proxy stems loaded from the playlist (the code stores full
paths `proxy_dir / f"{hash}.jpg"`; the stem determines the path, so stems
stand for paths and `p.exists()` is membership in `fs.artifacts`).
`current_index` is kept as an integer, as in Python, so the transient
decrement below zero in `previous_image` is representable. -/
structure Slideshow where
  images : List String
  current_index : Int
  loop : Bool
  sort_by : String

/-- The index-clamping tail of `Slideshow._refresh_image_list`
(src/slideshow.py lines 112-122): reset to 0 when the list is empty or the
index ran past the end; otherwise a lazy existence check on the current image
that at most clamps to `len - 1`. -/
def clampIndex (deletedCheck : Bool) (s : Slideshow) : Slideshow :=
  if s.images.length = 0 then { s with current_index := 0 }
  else if s.current_index ≥ s.images.length then { s with current_index := 0 }
  else if deletedCheck then
    { s with current_index := min s.current_index ((s.images.length : Int) - 1) }
  else s

/-- `Slideshow._refresh_image_list` (src/slideshow.py lines 70-122), the
playlist branch: load the playlist for the current policy, turn hashes into
paths, drop paths whose file no longer exists, then adjust the index. The
lazy existence check on the current entry is always run here
(`deletedCheck := true`); it only ever clamps to `len - 1`. -/
def refreshImageList (shuffle : List OrderEntry → List OrderEntry) (fs : FS)
    (file : FileState (List OrderEntry)) (s : Slideshow) : Slideshow :=
  let image_hashes := getPlaylist shuffle fs s.sort_by file
  let image_paths := image_hashes.filter (fun h => h ∈ fs.artifacts)
  clampIndex true { s with images := image_paths }

/-- `Slideshow.refresh` (src/slideshow.py lines 171-205), the optimized
branch: reload the playlist, filter to existing files, and clamp the index
(no lazy existence check on this path). -/
def slideshowRefresh (shuffle : List OrderEntry → List OrderEntry) (fs : FS)
    (file : FileState (List OrderEntry)) (s : Slideshow) : Slideshow :=
  let new_image_paths := (getPlaylist shuffle fs s.sort_by file).filter
    (fun h => h ∈ fs.artifacts)
  clampIndex false { s with images := new_image_paths }

/-- `Slideshow.get_current_image` (src/slideshow.py lines 124-139): `None`
on an empty list; otherwise the entry at the cursor if its file still exists;
otherwise an implicit `_refresh_image_list` followed by re-reading the entry
at the (re-clamped) cursor, or `None` if nothing is left. Returns the image
together with the possibly-refreshed state. -/
def getCurrentImage (shuffle : List OrderEntry → List OrderEntry) (fs : FS)
    (file : FileState (List OrderEntry)) (s : Slideshow) :
    Option String × Slideshow :=
  if s.images = [] then (none, s)
  else
    let image_path := s.images.getD s.current_index.toNat ""
    if image_path ∈ fs.artifacts then (some image_path, s)
    else
      let s' := refreshImageList shuffle fs file s
      if s'.images = [] then (none, s')
      else (some (s'.images.getD s'.current_index.toNat ""), s')

/-- `Slideshow.next_image` (src/slideshow.py lines 141-154): increment, wrap
to 0 (looping) or clamp to `len - 1` (non-looping) when past the end, then
delegate to `get_current_image`. -/
def nextImage (shuffle : List OrderEntry → List OrderEntry) (fs : FS)
    (file : FileState (List OrderEntry)) (s : Slideshow) :
    Option String × Slideshow :=
  if s.images = [] then (none, s)
  else
    let s := { s with current_index := s.current_index + 1 }
    let s :=
      if s.current_index ≥ s.images.length then
        if s.loop then { s with current_index := 0 }
        else { s with current_index := (s.images.length : Int) - 1 }
      else s
    getCurrentImage shuffle fs file s

/-- `Slideshow.previous_image` (src/slideshow.py lines 156-169): decrement,
wrap to `len - 1` (looping) or clamp to 0 (non-looping) when below zero, then
delegate to `get_current_image`. -/
def previousImage (shuffle : List OrderEntry → List OrderEntry) (fs : FS)
    (file : FileState (List OrderEntry)) (s : Slideshow) :
    Option String × Slideshow :=
  if s.images = [] then (none, s)
  else
    let s := { s with current_index := s.current_index - 1 }
    let s :=
      if s.current_index < 0 then
        if s.loop then { s with current_index := (s.images.length : Int) - 1 }
        else { s with current_index := 0 }
      else s
    getCurrentImage shuffle fs file s

/-- The cursor-position invariant: a valid in-range index on a non-empty
list, index 0 on an empty one. -/
def CursorInv (s : Slideshow) : Prop :=
  (s.images = [] → s.current_index = 0) ∧
  (s.images ≠ [] → 0 ≤ s.current_index ∧ s.current_index < s.images.length)

/-!
### ContentStore: ImageProcessor.process_image, src/image_processor.py

`process_image` hashes the source bytes (md5 hex digest), and either returns
the existing proxy path without opening the image, or decodes, resizes and
encodes a new proxy. At the level where artifacts are identified by their
digest stem, the store is the list of stems; the returned `Bool` records
whether the decode/encode branch ran. The digest function is a parameter
(`md5 : List Nat → String`) applied to the raw source bytes. -/
def processImageDigest (file_hash : String) (artifacts : List String) :
    List String × String × Bool :=
  if file_hash ∈ artifacts then (artifacts, file_hash, false)
  else (artifacts ++ [file_hash], file_hash, true)

/-- `process_image` proper: digest the raw bytes, then materialize. -/
def processImage (md5 : List Nat → String) (sourceBytes : List Nat)
    (artifacts : List String) : List String × String × Bool :=
  processImageDigest (md5 sourceBytes) artifacts

/-- Run `process_image` over a list of submissions (bytes with a filename
label, the label being irrelevant to hashing), collecting the created flags. -/
def processAll (md5 : List Nat → String) (subs : List (List Nat × String))
    (artifacts : List String) : List String × List Bool :=
  match subs with
  | [] => (artifacts, [])
  | s :: rest =>
    let (a, _, created) := processImage md5 s.1 artifacts
    let (a', flags) := processAll md5 rest a
    (a', created :: flags)

/-!
### IngestionQueue: WebInterface, src/web_interface.py
-/

/-- One record of `metadata.json` as written in `_process_upload_queue`
(src/web_interface.py lines 131-139); geolocation fields and the nested EXIF
blob are represented by the EXIF date that ordering consults. -/
structure MetaRecord where
  sender : String
  subject : String
  date : Int
  exifDate : Option Int
deriving DecidableEq

/-- `metadata[image_hash] = {...}` on a Python dict: overwrite in place if
the key exists, append otherwise. -/
def upsert (t : List (String × MetaRecord)) (k : String) (v : MetaRecord) :
    List (String × MetaRecord) :=
  if t.any (fun p => p.1 = k) then
    t.map (fun p => if p.1 = k then (k, v) else p)
  else t ++ [(k, v)]

/-- One queued upload job (`self._upload_queue` items plus the facts the
batch derives from the original file: its content digest and EXIF date). -/
structure BatchItem where
  digest : String
  uploader : String
  exifDate : Option Int
deriving DecidableEq

/-- The three playlist files, one per ordering policy. -/
structure Playlists where
  transfer_time : List OrderEntry
  creation_time : List OrderEntry
  random : List OrderEntry
deriving DecidableEq

/-- Persistent state touched by a batch run. -/
structure SysState where
  artifacts : List String
  metaFile : FileState (List (String × MetaRecord))
  playlists : Playlists

/-- Ambient environment: file modification times, Python's string hash, and
the receipt time used when no EXIF date is available. -/
structure Env where
  mtime : String → Int
  pyHash : String → Int
  now : Int

/-- The `FS` view `PlaylistManager` has of a system state: `creation_time`
sort keys read `metadata.json` fresh and use the stored `exif_data` date. -/
def mkFS (env : Env) (artifacts : List String)
    (metaFile : FileState (List (String × MetaRecord))) : FS :=
  { artifacts := artifacts
    mtime := env.mtime
    exifDate := fun h =>
      match metaFile with
      | .wellFormed t =>
        match t.find? (fun p => p.1 = h) with
        | some p => p.2.exifDate
        | none => none
      | _ => none
    pyHash := env.pyHash }

/-- Result of one batch run: the new state plus how many times the metadata
file and each playlist file were written during the run. -/
structure BatchResult where
  state : SysState
  metaWrites : Nat
  transferWrites : Nat
  creationWrites : Nat
  randomWrites : Nat

/-- Per-item phase of `_process_upload_queue` (src/web_interface.py lines
116-147): create the proxy (`process_image`) and upsert the in-memory
metadata record, whose `date` is the EXIF date or the receipt time. -/
def processBatchItem (env : Env)
    (acc : List String × List (String × MetaRecord)) (item : BatchItem) :
    List String × List (String × MetaRecord) :=
  let (artifacts, metadata) := acc
  let (artifacts', image_hash, _) := processImageDigest item.digest artifacts
  let record : MetaRecord :=
    { sender := item.uploader
      subject := ""
      date := item.exifDate.getD env.now
      exifDate := item.exifDate }
  (artifacts', upsert metadata image_hash record)

/-- Playlist phase of `_process_upload_queue` (src/web_interface.py lines
158-171): for each batch item, `add_image` inserts the digest into all three
playlist files, each insertion re-reading and re-writing that file unless the
hash is already present. -/
def addImageStep (fs : FS) (acc : Playlists × Nat × Nat × Nat)
    (item : BatchItem) : Playlists × Nat × Nat × Nat :=
  let (pls, wt, wc, wr) := acc
  let h := item.digest
  ( { transfer_time := addToPlaylist fs h "transfer_time" (.wellFormed pls.transfer_time)
      creation_time := addToPlaylist fs h "creation_time" (.wellFormed pls.creation_time)
      random := addToPlaylist fs h "random" (.wellFormed pls.random) }
  , wt + addToPlaylistWrites h (.wellFormed pls.transfer_time)
  , wc + addToPlaylistWrites h (.wellFormed pls.creation_time)
  , wr + addToPlaylistWrites h (.wellFormed pls.random) )

/-- Loading `metadata.json` at the top of a batch run (src/web_interface.py
lines 105-113): an absent or unparsable file yields the empty table. -/
def loadedTable (f : FileState (List (String × MetaRecord))) :
    List (String × MetaRecord) :=
  match f with
  | .wellFormed t => t
  | _ => []

/-- Artifact store and in-memory metadata table after the per-item loop of a
batch run. -/
def batchTables (env : Env) (batch : List BatchItem) (st : SysState) :
    List String × List (String × MetaRecord) :=
  batch.foldl (processBatchItem env) (st.artifacts, loadedTable st.metaFile)

/-- The `FS` view during the playlist phase: the metadata file has just been
written with the batch's table. -/
def batchFS (env : Env) (batch : List BatchItem) (st : SysState) : FS :=
  mkFS env (batchTables env batch st).1 (.wellFormed (batchTables env batch st).2)

/-- Playlist contents and per-file write counts after the playlist phase. -/
def batchPlaylists (env : Env) (batch : List BatchItem) (st : SysState) :
    Playlists × Nat × Nat × Nat :=
  batch.foldl (addImageStep (batchFS env batch st)) (st.playlists, 0, 0, 0)

/-- One batch run of `_process_upload_queue` (src/web_interface.py lines
100-181): load the metadata table once, process every item sequentially,
write the metadata file once (`json.dump` at lines 150-156), then update the
playlists item by item. -/
def runBatch (env : Env) (batch : List BatchItem) (st : SysState) : BatchResult :=
  { state :=
      { artifacts := (batchTables env batch st).1
        metaFile := .wellFormed (batchTables env batch st).2
        playlists := (batchPlaylists env batch st).1 }
    metaWrites := 1
    transferWrites := (batchPlaylists env batch st).2.1
    creationWrites := (batchPlaylists env batch st).2.2.1
    randomWrites := (batchPlaylists env batch st).2.2.2 }

/-- Debounce timer semantics of `_schedule_processing` (src/web_interface.py
lines 61-70) over the submission times: every submission cancels the pending
timer and arms a new one `delay` later, so the timer armed at `t₁` fires iff
the next submission arrives no earlier than `t₁ + delay`; the last timer
always fires. Returns the number of firings, i.e. of batch-loop starts. -/
def timerFirings (delay : Int) : List Int → Nat
  | [] => 0
  | [_] => 1
  | t₁ :: t₂ :: rest =>
    (if t₂ < t₁ + delay then 0 else 1) + timerFirings delay (t₂ :: rest)

/-- One invocation of `_process_upload_queue` (src/web_interface.py lines
72-206), with the `_is_processing` flag modelled faithfully. The guard at
line 75 returns immediately while a run is active; otherwise the invocation
drains one batch of at most `_processing_batch_size = 5` jobs (lines 87-95),
runs it, and — if jobs remain and no upload is in flight — makes the
recursive call at line 204. That call sits inside the `try` block, before
the `finally` at line 206 clears the flag set at line 97, so it executes
with `_is_processing` still true; it is passed `true` here. Returns the
remaining queue and the resulting state. -/
def processUploadQueue (env : Env) (is_processing : Bool)
    (queue : List BatchItem) (st : SysState) : List BatchItem × SysState :=
  if is_processing then (queue, st)
  else if queue = [] then (queue, st)
  else
    let batch := queue.take 5
    let rest := queue.drop 5
    let st' := (runBatch env batch st).state
    if rest ≠ [] then processUploadQueue env true rest st'
    else (rest, st')
termination_by (if is_processing then 0 else 1)
decreasing_by
  simp_all

/-!
### ImageProcessor._resize_with_aspect_ratio, src/image_processor.py lines 78-104

Pixel dimensions only. `img.size` is `(img_width, img_height)`;
`int(x)` on the positive float quotients is floor, modelled by `Nat`
division; Python's `//` is floor division, modelled by `Int.fdiv`. The float
comparison `img_ratio > target_ratio` is `img_width / img_height >
target_width / target_height`, i.e. `img_width * target_height >
target_width * img_height` over the positive integers. `img.crop(box)` with
a box reaching outside the image pads the missing area and returns an image
of exactly the box's size. -/
structure ResizeTrace where
  scaled_w : Nat
  scaled_h : Nat
  crop : Option (Int × Int × Int × Int)
  out_w : Int
  out_h : Int
deriving DecidableEq, Repr

/-- Lines 84-94: pick the scaled size. `img_ratio > target_ratio` over
positive reals is `img_width * target_height > target_width * img_height`;
wider images fit the target width, others fit the target height. -/
def scaledSize (target_width target_height img_width img_height : Nat) : Nat × Nat :=
  if img_width * target_height > target_width * img_height then
    (target_width, target_width * img_height / img_width)
  else
    (target_height * img_width / img_height, target_height)

/-- Lines 96-102: when the scaled size differs from the target footprint,
apply the centered crop box of exactly the target size. -/
def cropStep (target_width target_height new_width new_height : Nat) : ResizeTrace :=
  if new_width ≠ target_width ∨ new_height ≠ target_height then
    let left := Int.fdiv ((new_width : Int) - (target_width : Int)) 2
    let top := Int.fdiv ((new_height : Int) - (target_height : Int)) 2
    let right := left + (target_width : Int)
    let bottom := top + (target_height : Int)
    { scaled_w := new_width, scaled_h := new_height
      crop := some (left, top, right, bottom)
      out_w := right - left, out_h := bottom - top }
  else
    { scaled_w := new_width, scaled_h := new_height, crop := none
      out_w := new_width, out_h := new_height }

/-- `_resize_with_aspect_ratio` on dimensions: scale, then crop to the exact
target footprint when the scaled size differs from it. -/
def resizeWithAspectRatio (target_width target_height img_width img_height : Nat) :
    ResizeTrace :=
  cropStep target_width target_height
    (scaledSize target_width target_height img_width img_height).1
    (scaledSize target_width target_height img_width img_height).2

/-- The crop box names a region contained in the scaled image. -/
def cropContained (t : ResizeTrace) : Prop :=
  match t.crop with
  | none => True
  | some (l, tp, r, b) =>
    0 ≤ l ∧ 0 ≤ tp ∧ r ≤ (t.scaled_w : Int) ∧ b ≤ (t.scaled_h : Int)

instance (t : ResizeTrace) : Decidable (cropContained t) :=
  match h : t.crop with
  | none => isTrue (by simp [cropContained, h])
  | some (l, tp, r, b) =>
    decidable_of_iff
      (0 ≤ l ∧ 0 ≤ tp ∧ r ≤ (t.scaled_w : Int) ∧ b ≤ (t.scaled_h : Int))
      (by simp [cropContained, h])

/-- The crop box covers the whole scaled image (so cropping only pads; no
pixel of the scaled image is discarded). -/
def cropCovers (t : ResizeTrace) : Prop :=
  match t.crop with
  | none => True
  | some (l, tp, r, b) =>
    l ≤ 0 ∧ tp ≤ 0 ∧ (t.scaled_w : Int) ≤ r ∧ (t.scaled_h : Int) ≤ b

/-!
### Helper lemmas about the playlist operations
-/

theorem any_hash_iff (pl : List OrderEntry) (h : String) :
    (pl.any (fun item => item.hash = h) = true) ↔ h ∈ plHashes pl := by
  simp [plHashes, List.any_eq_true, List.mem_map]

/-- `_add_to_playlist` is an exact no-op when the hash is already present. -/
theorem addToPlaylist_eq_of_mem (fs : FS) (h sb : String) (pl : List OrderEntry)
    (hmem : h ∈ plHashes pl) :
    addToPlaylist fs h sb (.wellFormed pl) = pl := by
  unfold addToPlaylist
  simp only [loadedPlaylist]
  rw [if_pos ((any_hash_iff pl h).mpr hmem)]

/-- When absent, the result is a permutation of the old playlist with the new
entry appended. -/
theorem addToPlaylist_perm_of_not_mem (fs : FS) (h sb : String)
    (pl : List OrderEntry) (hmem : h ∉ plHashes pl) :
    List.Perm (addToPlaylist fs h sb (.wellFormed pl))
      (pl ++ [⟨h, getSortKey fs h sb⟩]) := by
  unfold addToPlaylist
  simp only [loadedPlaylist]
  rw [if_neg (fun hc => hmem ((any_hash_iff pl h).mp hc))]
  by_cases hr : sb = "random"
  · simp [hr]
  · simp only [if_neg hr]
    exact sortDesc_perm _

theorem plHashes_perm {l₁ l₂ : List OrderEntry} (hp : List.Perm l₁ l₂) :
    List.Perm (plHashes l₁) (plHashes l₂) := hp.map _

theorem mem_plHashes_addToPlaylist_self (fs : FS) (h sb : String)
    (pl : List OrderEntry) :
    h ∈ plHashes (addToPlaylist fs h sb (.wellFormed pl)) := by
  by_cases hmem : h ∈ plHashes pl
  · rw [addToPlaylist_eq_of_mem fs h sb pl hmem]; exact hmem
  · have hp := plHashes_perm (addToPlaylist_perm_of_not_mem fs h sb pl hmem)
    rw [hp.mem_iff]
    simp [plHashes]

theorem mem_plHashes_addToPlaylist_of_mem (fs : FS) (h sb : String)
    (pl : List OrderEntry) {g : String} (hg : g ∈ plHashes pl) :
    g ∈ plHashes (addToPlaylist fs h sb (.wellFormed pl)) := by
  by_cases hmem : h ∈ plHashes pl
  · rw [addToPlaylist_eq_of_mem fs h sb pl hmem]; exact hg
  · have hp := plHashes_perm (addToPlaylist_perm_of_not_mem fs h sb pl hmem)
    rw [hp.mem_iff]
    simp only [plHashes, List.map_append, List.mem_append]
    exact Or.inl hg

theorem count_plHashes_addToPlaylist_of_not_mem (fs : FS) (h sb : String)
    (pl : List OrderEntry) (hmem : h ∉ plHashes pl) :
    (plHashes (addToPlaylist fs h sb (.wellFormed pl))).count h
      = (plHashes pl).count h + 1 := by
  have hp := plHashes_perm (addToPlaylist_perm_of_not_mem fs h sb pl hmem)
  rw [hp.count_eq]
  simp [plHashes]

theorem nodup_plHashes_addToPlaylist (fs : FS) (h sb : String)
    (pl : List OrderEntry) (hnd : (plHashes pl).Nodup) :
    (plHashes (addToPlaylist fs h sb (.wellFormed pl))).Nodup := by
  by_cases hmem : h ∈ plHashes pl
  · rw [addToPlaylist_eq_of_mem fs h sb pl hmem]; exact hnd
  · have hp := plHashes_perm (addToPlaylist_perm_of_not_mem fs h sb pl hmem)
    refine hp.nodup_iff.mpr ?_
    simp only [plHashes, List.map_append]
    rw [List.nodup_append]
    refine ⟨hnd, by simp, ?_⟩
    intro a ha hb
    simp only [List.map_cons, List.map_nil, List.mem_singleton] at hb
    subst hb
    exact hmem ha

/-- Hashes after an add are among the old hashes plus the new one. -/
theorem plHashes_addToPlaylist_subset (fs : FS) (h sb : String)
    (pl : List OrderEntry) {g : String}
    (hg : g ∈ plHashes (addToPlaylist fs h sb (.wellFormed pl))) :
    g ∈ plHashes pl ∨ g = h := by
  by_cases hmem : h ∈ plHashes pl
  · rw [addToPlaylist_eq_of_mem fs h sb pl hmem] at hg; exact Or.inl hg
  · have hp := plHashes_perm (addToPlaylist_perm_of_not_mem fs h sb pl hmem)
    rw [hp.mem_iff] at hg
    simp only [plHashes, List.map_append, List.mem_append, List.map_cons,
      List.map_nil, List.mem_singleton] at hg
    exact hg.imp id id

/-!
### Helper lemmas about the batch loop
-/

/-- The submission times form one burst: each submission arrives within the
debounce delay of the previous one. -/
def isBurst (delay : Int) : List Int → Bool
  | [] => true
  | [_] => true
  | t₁ :: t₂ :: rest => (decide (t₂ < t₁ + delay)) && isBurst delay (t₂ :: rest)

/-- In a burst, every timer but the last is cancelled before it can fire. -/
theorem timerFirings_burst (delay : Int) (ts : List Int) (hne : ts ≠ [])
    (hburst : isBurst delay ts = true) :
    timerFirings delay ts = 1 := by
  induction ts with
  | nil => exact absurd rfl hne
  | cons t rest ih =>
    cases rest with
    | nil => rfl
    | cons t₂ r₂ =>
      simp only [isBurst, Bool.and_eq_true, decide_eq_true_eq] at hburst
      simp only [timerFirings, if_pos hburst.1]
      rw [ih (by simp) hburst.2]

/-- Membership of a hash in all three playlist files. -/
def InAll (g : String) (p : Playlists) : Prop :=
  g ∈ plHashes p.transfer_time ∧ g ∈ plHashes p.creation_time ∧ g ∈ plHashes p.random

instance (g : String) (p : Playlists) : Decidable (InAll g p) :=
  inferInstanceAs (Decidable (_ ∧ _ ∧ _))

theorem inAll_addImageStep_self (fs : FS) (acc : Playlists × Nat × Nat × Nat)
    (item : BatchItem) : InAll item.digest (addImageStep fs acc item).1 := by
  obtain ⟨pls, wt, wc, wr⟩ := acc
  exact ⟨mem_plHashes_addToPlaylist_self .., mem_plHashes_addToPlaylist_self ..,
    mem_plHashes_addToPlaylist_self ..⟩

theorem inAll_addImageStep_mono (fs : FS) (acc : Playlists × Nat × Nat × Nat)
    (item : BatchItem) {g : String} (hg : InAll g acc.1) :
    InAll g (addImageStep fs acc item).1 := by
  obtain ⟨pls, wt, wc, wr⟩ := acc
  exact ⟨mem_plHashes_addToPlaylist_of_mem _ _ _ _ hg.1,
    mem_plHashes_addToPlaylist_of_mem _ _ _ _ hg.2.1,
    mem_plHashes_addToPlaylist_of_mem _ _ _ _ hg.2.2⟩

theorem inAll_foldl_mono (fs : FS) (batch : List BatchItem)
    (acc : Playlists × Nat × Nat × Nat) {g : String} (hg : InAll g acc.1) :
    InAll g (batch.foldl (addImageStep fs) acc).1 := by
  induction batch generalizing acc with
  | nil => exact hg
  | cons item rest ih =>
    exact ih _ (inAll_addImageStep_mono fs acc item hg)

theorem inAll_foldl_of_mem (fs : FS) (batch : List BatchItem)
    (acc : Playlists × Nat × Nat × Nat) {item : BatchItem} (hitem : item ∈ batch) :
    InAll item.digest (batch.foldl (addImageStep fs) acc).1 := by
  induction batch generalizing acc with
  | nil => cases hitem
  | cons i rest ih =>
    rcases List.mem_cons.mp hitem with rfl | hmem
    · exact inAll_foldl_mono fs rest _ (inAll_addImageStep_self fs acc item)
    · exact ih _ hmem

theorem inAll_runBatch_of_mem (env : Env) (batch : List BatchItem)
    (st : SysState) {item : BatchItem} (hitem : item ∈ batch) :
    InAll item.digest (runBatch env batch st).state.playlists :=
  inAll_foldl_of_mem _ batch _ hitem

theorem inAll_runBatch_mono (env : Env) (batch : List BatchItem)
    (st : SysState) {g : String} (hg : InAll g st.playlists) :
    InAll g (runBatch env batch st).state.playlists :=
  inAll_foldl_mono _ batch _ hg

/-!
### Claim C1: debounce coalescing and the stuck batch-loop recursion
-/

theorem processUploadQueue_busy (env : Env) (queue : List BatchItem)
    (st : SysState) : processUploadQueue env true queue st = (queue, st) := by
  unfold processUploadQueue
  simp

/-- What one timer firing actually does: it drains exactly one batch of 5;
the recursive call for the remainder runs under the still-set
`_is_processing` flag and is a no-op. -/
theorem processUploadQueue_run (env : Env) (queue : List BatchItem)
    (st : SysState) (hne : queue ≠ []) :
    processUploadQueue env false queue st
      = (queue.drop 5, (runBatch env (queue.take 5) st).state) := by
  by_cases hr : queue.drop 5 = []
  · unfold processUploadQueue
    simp [hne, hr]
  · unfold processUploadQueue
    simp [hne, hr, processUploadQueue_busy]

theorem plHashes_foldl_transfer_subset (fs : FS) (batch : List BatchItem)
    (acc : Playlists × Nat × Nat × Nat) {g : String}
    (hg : g ∈ plHashes (batch.foldl (addImageStep fs) acc).1.transfer_time) :
    g ∈ plHashes acc.1.transfer_time ∨ g ∈ batch.map (·.digest) := by
  induction batch generalizing acc with
  | nil => exact Or.inl hg
  | cons i rest ih =>
    simp only [List.foldl_cons] at hg
    simp only [List.map_cons, List.mem_cons]
    rcases ih _ hg with hstep | hrest
    · obtain ⟨pls, wt, wc, wr⟩ := acc
      rcases plHashes_addToPlaylist_subset fs i.digest "transfer_time"
        pls.transfer_time hstep with hold | heq
      · exact Or.inl hold
      · exact Or.inr (Or.inl heq)
    · exact Or.inr (Or.inr hrest)

/-- Identities in the `transfer_time` index after a batch run were already
there or belong to the batch. -/
theorem runBatch_transfer_subset (env : Env) (batch : List BatchItem)
    (st : SysState) {g : String}
    (hg : g ∈ plHashes (runBatch env batch st).state.playlists.transfer_time) :
    g ∈ plHashes st.playlists.transfer_time ∨ g ∈ batch.map (·.digest) :=
  plHashes_foldl_transfer_subset _ batch _ hg

/-- C1 (code bug): in the claim's scenario — 12 submissions in one burst,
debounce delay, batch size 5 — the debounce timer does fire exactly once,
but the single invocation of `_process_upload_queue` it triggers processes
only the first batch of 5 jobs. The recursive call for the next batch
(web_interface.py line 204) executes inside the `try` block while
`_is_processing` (set at line 97, cleared only in the `finally` at line 206)
is still true, so the guard at line 75 makes it a no-op: 7 jobs remain
queued with no timer armed, every identity of the first batch reaches all
three indices, and a remaining job's identity that was not already present
and is not shared with the first batch never reaches the `transfer_time`
index — the claimed 3 batch runs and 12 settled identities do not happen. -/
theorem c1_stuck_queue (delay : Int) (ts : List Int) (env : Env)
    (st : SysState) (q : List BatchItem)
    (hts : ts.length = 12) (hq : q.length = 12)
    (hburst : isBurst delay ts = true) :
    timerFirings delay ts = 1 ∧
    processUploadQueue env false q st
      = (q.drop 5, (runBatch env (q.take 5) st).state) ∧
    (processUploadQueue env false q st).1.length = 7 ∧
    (∀ item ∈ q.take 5,
      InAll item.digest (processUploadQueue env false q st).2.playlists) ∧
    ∀ item ∈ q.drop 5,
      item.digest ∉ plHashes st.playlists.transfer_time →
      (∀ j ∈ q.take 5, j.digest ≠ item.digest) →
      item.digest ∉
        plHashes (processUploadQueue env false q st).2.playlists.transfer_time := by
  have hne : q ≠ [] := by
    intro hnil
    rw [hnil] at hq
    simp at hq
  have hrun := processUploadQueue_run env q st hne
  refine ⟨?_, hrun, ?_, ?_, ?_⟩
  · refine timerFirings_burst delay ts ?_ hburst
    intro hnil
    rw [hnil] at hts
    simp at hts
  · rw [hrun]
    simp [hq]
  · intro item hitem
    rw [hrun]
    exact inAll_runBatch_of_mem env (q.take 5) st hitem
  · intro item hitem hfresh hdist hmem
    rw [hrun] at hmem
    rcases runBatch_transfer_subset env (q.take 5) st hmem with hold | hbatch
    · exact hfresh hold
    · obtain ⟨j, hj, hjd⟩ := List.mem_map.mp hbatch
      exact hdist j hj hjd

/-- Concrete environment shared by the witnesses. -/
def envW : Env := { mtime := fun _ => 0, pyHash := fun _ => 0, now := 0 }

/-- Concrete empty initial system state shared by the witnesses. -/
def stW : SysState :=
  { artifacts := []
    metaFile := .missing
    playlists := { transfer_time := [], creation_time := [], random := [] } }

/-- Concrete burst of 12 submission times, 1 second apart. -/
def tsW : List Int := [0, 1, 2, 3, 4, 5, 6, 7, 8, 9, 10, 11]

/-- Concrete queue of 12 distinct uploads. -/
def qW : List BatchItem :=
  [⟨"h01", "u", none⟩, ⟨"h02", "u", none⟩, ⟨"h03", "u", none⟩,
   ⟨"h04", "u", none⟩, ⟨"h05", "u", none⟩, ⟨"h06", "u", none⟩,
   ⟨"h07", "u", none⟩, ⟨"h08", "u", none⟩, ⟨"h09", "u", none⟩,
   ⟨"h10", "u", none⟩, ⟨"h11", "u", none⟩, ⟨"h12", "u", none⟩]

theorem c1_stuck_queue_witness :
    tsW.length = 12 ∧ qW.length = 12 ∧
    isBurst 15 tsW = true ∧
    (timerFirings 15 tsW = 1 ∧
     processUploadQueue envW false qW stW
       = (qW.drop 5, (runBatch envW (qW.take 5) stW).state) ∧
     (processUploadQueue envW false qW stW).1.length = 7 ∧
     (∀ item ∈ qW.take 5,
       InAll item.digest (processUploadQueue envW false qW stW).2.playlists) ∧
     ∀ item ∈ qW.drop 5,
       item.digest ∉ plHashes stW.playlists.transfer_time →
       (∀ j ∈ qW.take 5, j.digest ≠ item.digest) →
       item.digest ∉
         plHashes (processUploadQueue envW false qW stW).2.playlists.transfer_time) :=
  ⟨by decide, by decide, by decide,
   c1_stuck_queue 15 tsW envW stW qW (by decide) (by decide) (by decide)⟩

/-!
### Claim C2: content dedup — one artifact, one entry, one encode
-/

/-- Once the digest's artifact exists, further identical submissions change
nothing and never take the encode branch. -/
theorem processAll_of_mem (md5 : List Nat → String) (b : List Nat)
    (subs : List (List Nat × String)) (a : List String)
    (hall : ∀ s ∈ subs, s.1 = b) (hmem : md5 b ∈ a) :
    processAll md5 subs a = (a, List.replicate subs.length false) := by
  induction subs with
  | nil => rfl
  | cons s rest ih =>
    have hs : s.1 = b := hall s (List.mem_cons_self s rest)
    simp only [processAll, processImage, processImageDigest, hs, if_pos hmem]
    rw [ih (fun x hx => hall x (List.mem_cons_of_mem s hx))]
    rfl

/-- Adding the same absent digest over and over leaves the playlist fixed
after the first insertion. -/
theorem addFold_of_mem (fs : FS) (sb : String) (md5 : List Nat → String)
    (b : List Nat) (subs : List (List Nat × String)) (pl : List OrderEntry)
    (hall : ∀ s ∈ subs, s.1 = b) (hmem : md5 b ∈ plHashes pl) :
    subs.foldl (fun p s => addToPlaylist fs (md5 s.1) sb (.wellFormed p)) pl = pl := by
  induction subs with
  | nil => rfl
  | cons s rest ih =>
    have hs : s.1 = b := hall s (List.mem_cons_self s rest)
    simp only [List.foldl_cons, hs, addToPlaylist_eq_of_mem fs (md5 b) sb pl hmem]
    exact ih (fun x hx => hall x (List.mem_cons_of_mem s hx))

/-- C2: byte-identical submissions dedup to one artifact. For any non-empty
run of submissions whose raw bytes all equal `b` (filenames arbitrary),
starting from a store without the digest: the store gains exactly the one
digest-named artifact; only the first call takes the decode/encode branch
(`created` flags are `true` then all `false`); and folding the playlist
insertion over the submissions leaves exactly one entry for the digest in
the order index. -/
theorem c2_dedup (md5 : List Nat → String) (b : List Nat)
    (subs : List (List Nat × String)) (a₀ : List String) (fs : FS)
    (sb : String) (pl₀ : List OrderEntry)
    (hne : subs ≠ []) (hall : ∀ s ∈ subs, s.1 = b)
    (ha : md5 b ∉ a₀) (hpl : md5 b ∉ plHashes pl₀) :
    (processAll md5 subs a₀).1 = a₀ ++ [md5 b] ∧
    (processAll md5 subs a₀).1.count (md5 b) = 1 ∧
    (processAll md5 subs a₀).2 = true :: List.replicate (subs.length - 1) false ∧
    (plHashes (subs.foldl
        (fun p s => addToPlaylist fs (md5 s.1) sb (.wellFormed p)) pl₀)).count
      (md5 b) = 1 := by
  obtain ⟨s, rest, rfl⟩ := List.exists_cons_of_ne_nil hne
  have hs : s.1 = b := hall s (List.mem_cons_self s rest)
  have hrest : ∀ x ∈ rest, x.1 = b := fun x hx => hall x (List.mem_cons_of_mem s hx)
  have hmem₁ : md5 b ∈ a₀ ++ [md5 b] := by simp
  have hp : processAll md5 (s :: rest) a₀
      = (a₀ ++ [md5 b], true :: List.replicate rest.length false) := by
    simp only [processAll, processImage, processImageDigest, hs, if_neg ha]
    rw [processAll_of_mem md5 b rest (a₀ ++ [md5 b]) hrest hmem₁]
  refine ⟨by rw [hp], ?_, ?_, ?_⟩
  · rw [hp]
    simp [List.count_append, List.count_eq_zero_of_not_mem ha]
  · rw [hp]
    simp
  · simp only [List.foldl_cons, hs]
    have h₁ : md5 b ∈ plHashes (addToPlaylist fs (md5 b) sb (.wellFormed pl₀)) :=
      mem_plHashes_addToPlaylist_self fs (md5 b) sb pl₀
    rw [addFold_of_mem fs sb md5 b rest _ hrest h₁]
    have hc := count_plHashes_addToPlaylist_of_not_mem fs (md5 b) sb pl₀ hpl
    rw [hc, List.count_eq_zero_of_not_mem hpl]

theorem c2_dedup_witness :
    (([([1], "a.jpg"), ([1], "b.jpg"), ([1], "c.jpg")] :
        List (List Nat × String)) ≠ []) ∧
    ((fun _ => "e1") ([1] : List Nat) ∉ ([] : List String)) ∧
    ((processAll (fun _ => "e1")
        [([1], "a.jpg"), ([1], "b.jpg"), ([1], "c.jpg")] []).1 = [] ++ ["e1"] ∧
     (processAll (fun _ => "e1")
        [([1], "a.jpg"), ([1], "b.jpg"), ([1], "c.jpg")] []).1.count "e1" = 1 ∧
     (processAll (fun _ => "e1")
        [([1], "a.jpg"), ([1], "b.jpg"), ([1], "c.jpg")] []).2
        = true :: List.replicate 2 false ∧
     (plHashes ([([1], "a.jpg"), ([1], "b.jpg"), ([1], "c.jpg")].foldl
        (fun p s => addToPlaylist
          { artifacts := ["e1"], mtime := fun _ => 0, exifDate := fun _ => none,
            pyHash := fun _ => 0 }
          ((fun _ => "e1") s.1) "transfer_time" (.wellFormed p)) [])).count "e1"
        = 1) :=
  ⟨by decide, by decide,
   c2_dedup (fun _ => "e1") [1] [([1], "a.jpg"), ([1], "b.jpg"), ([1], "c.jpg")]
     [] { artifacts := ["e1"], mtime := fun _ => 0, exifDate := fun _ => none,
          pyHash := fun _ => 0 }
     "transfer_time" [] (by decide) (by decide) (by decide) (by decide)⟩

/-!
### Claim C3: per-batch persistence counts
-/

theorem addToPlaylistWrites_eq (h : String) (pl : List OrderEntry) :
    addToPlaylistWrites h (.wellFormed pl) = if h ∈ plHashes pl then 0 else 1 := by
  unfold addToPlaylistWrites
  simp only [loadedPlaylist]
  by_cases hm : h ∈ plHashes pl
  · rw [if_pos ((any_hash_iff pl h).mpr hm), if_pos hm]
  · rw [if_neg (fun hc => hm ((any_hash_iff pl h).mp hc)), if_neg hm]

theorem foldl_writes_le (fs : FS) (batch : List BatchItem)
    (acc : Playlists × Nat × Nat × Nat) :
    (batch.foldl (addImageStep fs) acc).2.1 ≤ acc.2.1 + batch.length ∧
    (batch.foldl (addImageStep fs) acc).2.2.1 ≤ acc.2.2.1 + batch.length ∧
    (batch.foldl (addImageStep fs) acc).2.2.2 ≤ acc.2.2.2 + batch.length := by
  induction batch generalizing acc with
  | nil => exact ⟨le_refl _, le_refl _, le_refl _⟩
  | cons i rest ih =>
    obtain ⟨pls, wt, wc, wr⟩ := acc
    have hstep := ih (addImageStep fs (pls, wt, wc, wr) i)
    simp only [List.foldl_cons]
    refine ⟨hstep.1.trans ?_, hstep.2.1.trans ?_, hstep.2.2.trans ?_⟩ <;>
      simp only [addImageStep, addToPlaylistWrites_eq, List.length_cons] <;>
      split <;> omega

theorem foldl_writes_eq (fs : FS) (batch : List BatchItem)
    (acc : Playlists × Nat × Nat × Nat)
    (hnd : (batch.map (·.digest)).Nodup)
    (hft : ∀ i ∈ batch, i.digest ∉ plHashes acc.1.transfer_time)
    (hfc : ∀ i ∈ batch, i.digest ∉ plHashes acc.1.creation_time)
    (hfr : ∀ i ∈ batch, i.digest ∉ plHashes acc.1.random) :
    (batch.foldl (addImageStep fs) acc).2.1 = acc.2.1 + batch.length ∧
    (batch.foldl (addImageStep fs) acc).2.2.1 = acc.2.2.1 + batch.length ∧
    (batch.foldl (addImageStep fs) acc).2.2.2 = acc.2.2.2 + batch.length := by
  induction batch generalizing acc with
  | nil => exact ⟨rfl, rfl, rfl⟩
  | cons i rest ih =>
    obtain ⟨pls, wt, wc, wr⟩ := acc
    simp only [List.map_cons, List.nodup_cons, List.mem_map] at hnd
    have hit : i.digest ∉ plHashes pls.transfer_time :=
      hft i (List.mem_cons_self i rest)
    have hic : i.digest ∉ plHashes pls.creation_time :=
      hfc i (List.mem_cons_self i rest)
    have hir : i.digest ∉ plHashes pls.random :=
      hfr i (List.mem_cons_self i rest)
    have hstep : addImageStep fs (pls, wt, wc, wr) i
        = ({ transfer_time := addToPlaylist fs i.digest "transfer_time" (.wellFormed pls.transfer_time)
             creation_time := addToPlaylist fs i.digest "creation_time" (.wellFormed pls.creation_time)
             random := addToPlaylist fs i.digest "random" (.wellFormed pls.random) },
           wt + 1, wc + 1, wr + 1) := by
      simp only [addImageStep, addToPlaylistWrites_eq,
        if_neg hit, if_neg hic, if_neg hir]
    have hfresh : ∀ (j : BatchItem), j ∈ rest → j.digest ≠ i.digest := by
      intro j hj heq
      exact hnd.1 ⟨j, hj, heq⟩
    have ih' := ih (addImageStep fs (pls, wt, wc, wr) i) hnd.2 ?_ ?_ ?_
    · simp only [List.foldl_cons]
      rw [ih'.1, ih'.2.1, ih'.2.2, hstep]
      simp only [List.length_cons]
      omega
    · intro j hj hmem
      rw [hstep] at hmem
      rcases plHashes_addToPlaylist_subset fs i.digest "transfer_time"
        pls.transfer_time hmem with hold | heq
      · exact hft j (List.mem_cons_of_mem i hj) hold
      · exact hfresh j hj heq
    · intro j hj hmem
      rw [hstep] at hmem
      rcases plHashes_addToPlaylist_subset fs i.digest "creation_time"
        pls.creation_time hmem with hold | heq
      · exact hfc j (List.mem_cons_of_mem i hj) hold
      · exact hfresh j hj heq
    · intro j hj hmem
      rw [hstep] at hmem
      rcases plHashes_addToPlaylist_subset fs i.digest "random"
        pls.random hmem with hold | heq
      · exact hfr j (List.mem_cons_of_mem i hj) hold
      · exact hfresh j hj heq

/-- C3 counterexample: in a batch of two fresh uploads, the `transfer_time`
playlist file is written twice during the single batch run, contradicting
"each order-index file is written at most once per batch". -/
theorem c3_counterexample :
    ¬ ((runBatch envW [⟨"a", "u", none⟩, ⟨"b", "u", none⟩] stW).transferWrites ≤ 1) := by
  decide

/-- C3 (amended): during one batch run the metadata table file is written
exactly once for the whole batch, but each order-index file is written once
per item whose identity is new to it — up to `n` writes for a batch of `n`
jobs, with equality when all digests are distinct and fresh — rather than at
most once per batch. -/
theorem c3_amortized_persistence (env : Env) (batch : List BatchItem)
    (st : SysState) :
    (runBatch env batch st).metaWrites = 1 ∧
    (runBatch env batch st).transferWrites ≤ batch.length ∧
    (runBatch env batch st).creationWrites ≤ batch.length ∧
    (runBatch env batch st).randomWrites ≤ batch.length ∧
    ((batch.map (·.digest)).Nodup →
     (∀ i ∈ batch, i.digest ∉ plHashes st.playlists.transfer_time) →
     (∀ i ∈ batch, i.digest ∉ plHashes st.playlists.creation_time) →
     (∀ i ∈ batch, i.digest ∉ plHashes st.playlists.random) →
     (runBatch env batch st).transferWrites = batch.length ∧
     (runBatch env batch st).creationWrites = batch.length ∧
     (runBatch env batch st).randomWrites = batch.length) := by
  have hle := foldl_writes_le (batchFS env batch st) batch (st.playlists, 0, 0, 0)
  refine ⟨rfl, ?_, ?_, ?_, ?_⟩
  · simpa using hle.1
  · simpa using hle.2.1
  · simpa using hle.2.2
  · intro hnd hft hfc hfr
    have heq := foldl_writes_eq (batchFS env batch st) batch
      (st.playlists, 0, 0, 0) hnd hft hfc hfr
    exact ⟨by simpa using heq.1, by simpa using heq.2.1, by simpa using heq.2.2⟩

theorem c3_amortized_persistence_witness :
    ((runBatch envW [⟨"a", "u", none⟩, ⟨"b", "u", none⟩] stW).metaWrites = 1 ∧
     (runBatch envW [⟨"a", "u", none⟩, ⟨"b", "u", none⟩] stW).transferWrites ≤ 2 ∧
     (runBatch envW [⟨"a", "u", none⟩, ⟨"b", "u", none⟩] stW).creationWrites ≤ 2 ∧
     (runBatch envW [⟨"a", "u", none⟩, ⟨"b", "u", none⟩] stW).randomWrites ≤ 2 ∧
     (([⟨"a", "u", none⟩, ⟨"b", "u", none⟩] : List BatchItem).map (·.digest) |>.Nodup →
      (∀ i ∈ ([⟨"a", "u", none⟩, ⟨"b", "u", none⟩] : List BatchItem),
        i.digest ∉ plHashes stW.playlists.transfer_time) →
      (∀ i ∈ ([⟨"a", "u", none⟩, ⟨"b", "u", none⟩] : List BatchItem),
        i.digest ∉ plHashes stW.playlists.creation_time) →
      (∀ i ∈ ([⟨"a", "u", none⟩, ⟨"b", "u", none⟩] : List BatchItem),
        i.digest ∉ plHashes stW.playlists.random) →
      (runBatch envW [⟨"a", "u", none⟩, ⟨"b", "u", none⟩] stW).transferWrites = 2 ∧
      (runBatch envW [⟨"a", "u", none⟩, ⟨"b", "u", none⟩] stW).creationWrites = 2 ∧
      (runBatch envW [⟨"a", "u", none⟩, ⟨"b", "u", none⟩] stW).randomWrites = 2)) :=
  c3_amortized_persistence envW [⟨"a", "u", none⟩, ⟨"b", "u", none⟩] stW

/-!
### Claim C4: index self-healing on load
-/

theorem rebuild_perm (shuffle : List OrderEntry → List OrderEntry) (fs : FS)
    (sb : String) (hsh : ∀ l, List.Perm (shuffle l) l) :
    List.Perm (rebuildPlaylist shuffle fs sb)
      (fs.artifacts.map (fun h => OrderEntry.mk h (getSortKey fs h sb))) := by
  unfold rebuildPlaylist
  by_cases hr : sb = "random"
  · simp only [if_pos hr]; exact hsh _
  · simp only [if_neg hr]; exact sortDesc_perm _

theorem rebuild_entry_spec (shuffle : List OrderEntry → List OrderEntry)
    (fs : FS) (sb : String) (hsh : ∀ l, List.Perm (shuffle l) l) :
    ∀ e ∈ rebuildPlaylist shuffle fs sb,
      e.hash ∈ fs.artifacts ∧ e.sort_key = getSortKey fs e.hash sb := by
  intro e he
  have := (rebuild_perm shuffle fs sb hsh).mem_iff.mp he
  obtain ⟨a, ha, rfl⟩ := List.mem_map.mp this
  exact ⟨ha, rfl⟩

theorem extractHashes_eq_plHashes {l : List OrderEntry}
    (h : ∀ e ∈ l, e.hash ≠ "") : extractHashes l = plHashes l := by
  unfold extractHashes plHashes
  congr 1
  rw [List.filter_eq_self]
  intro e he
  simpa using h e he

/-- C4: when the persisted index file is missing or unparsable, `Load`
(`get_playlist`) transparently rebuilds and returns the rebuilt identities:
the result is exactly the hashes of the rebuilt playlist, a permutation of
the existing artifacts (hence non-empty when any artifact exists), and for
the non-random policies it is ordered descending by the policy's sort key. -/
theorem c4_load_self_heal (shuffle : List OrderEntry → List OrderEntry)
    (fs : FS) (sb : String) (file : FileState (List OrderEntry))
    (hfile : file = FileState.missing ∨ file = FileState.malformed)
    (hsh : ∀ l, List.Perm (shuffle l) l)
    (hart : ∀ a ∈ fs.artifacts, a ≠ "") :
    getPlaylist shuffle fs sb file = extractHashes (rebuildPlaylist shuffle fs sb) ∧
    List.Perm (getPlaylist shuffle fs sb file) fs.artifacts ∧
    (fs.artifacts ≠ [] → getPlaylist shuffle fs sb file ≠ []) ∧
    ((sb = "transfer_time" ∨ sb = "creation_time") →
      (getPlaylist shuffle fs sb file).Pairwise
        (fun a b => getSortKey fs b sb ≤ getSortKey fs a sb)) := by
  have hspec := rebuild_entry_spec shuffle fs sb hsh
  have hne : ∀ e ∈ rebuildPlaylist shuffle fs sb, e.hash ≠ "" :=
    fun e he => hart e.hash (hspec e he).1
  have h1 : getPlaylist shuffle fs sb file
      = extractHashes (rebuildPlaylist shuffle fs sb) := by
    rcases hfile with rfl | rfl <;> rfl
  have h2 : extractHashes (rebuildPlaylist shuffle fs sb)
      = plHashes (rebuildPlaylist shuffle fs sb) := extractHashes_eq_plHashes hne
  have h3 : List.Perm (plHashes (rebuildPlaylist shuffle fs sb)) fs.artifacts := by
    refine (plHashes_perm (rebuild_perm shuffle fs sb hsh)).trans ?_
    unfold plHashes
    rw [List.map_map]
    exact List.Perm.of_eq (List.map_id' fs.artifacts)
  refine ⟨h1, by rw [h1, h2]; exact h3, ?_, ?_⟩
  · intro hart_ne hres
    rw [h1, h2] at hres
    exact hart_ne (((hres ▸ h3 :
      List.Perm ([] : List String) fs.artifacts).symm).eq_nil)
  · intro hsb
    have hnr : sb ≠ "random" := by
      rcases hsb with rfl | rfl <;> decide
    have hsorted : (rebuildPlaylist shuffle fs sb).Pairwise keyGE := by
      unfold rebuildPlaylist
      rw [if_neg hnr]
      exact sortDesc_sorted _
    rw [h1, h2]
    unfold plHashes
    rw [List.pairwise_map]
    refine hsorted.imp_of_mem ?_
    intro a b ha hb hab
    have hka := (hspec a ha).2
    have hkb := (hspec b hb).2
    rw [← hka, ← hkb]
    exact hab

/-- Concrete filesystem view shared by several witnesses: one artifact "a". -/
def fsW : FS :=
  { artifacts := ["a"], mtime := fun _ => 0, exifDate := fun _ => none,
    pyHash := fun _ => 0 }

theorem c4_load_self_heal_witness :
    ((FileState.missing : FileState (List OrderEntry)) = FileState.missing ∨
      (FileState.missing : FileState (List OrderEntry)) = FileState.malformed) ∧
    (∀ l : List OrderEntry, List.Perm (id l) l) ∧
    (∀ a ∈ fsW.artifacts, a ≠ "") ∧
    (getPlaylist id fsW "transfer_time" .missing
        = extractHashes (rebuildPlaylist id fsW "transfer_time") ∧
     List.Perm (getPlaylist id fsW "transfer_time" .missing) fsW.artifacts ∧
     (fsW.artifacts ≠ [] → getPlaylist id fsW "transfer_time" .missing ≠ []) ∧
     (("transfer_time" = "transfer_time" ∨ "transfer_time" = "creation_time") →
       (getPlaylist id fsW "transfer_time" .missing).Pairwise
         (fun a b => getSortKey fsW b "transfer_time" ≤ getSortKey fsW a "transfer_time"))) :=
  ⟨Or.inl rfl, fun l => List.Perm.refl l, by decide,
   c4_load_self_heal id fsW "transfer_time" .missing (Or.inl rfl)
     (fun l => List.Perm.refl l) (by decide)⟩

/-!
### Claim C5: exactly-one-entry invariant
-/

theorem plHashes_rebuild_perm (shuffle : List OrderEntry → List OrderEntry)
    (fs : FS) (sb : String) (hsh : ∀ l, List.Perm (shuffle l) l) :
    List.Perm (plHashes (rebuildPlaylist shuffle fs sb)) fs.artifacts := by
  refine (plHashes_perm (rebuild_perm shuffle fs sb hsh)).trans ?_
  unfold plHashes
  rw [List.map_map]
  exact List.Perm.of_eq (List.map_id' fs.artifacts)

/-- C5: `Insert` on an already-present identity is an exact no-op; insertion
never creates a duplicate entry (the hash column stays duplicate-free and the
inserted identity ends with exactly one entry); and `Rebuild` yields exactly
one entry per existing artifact. -/
theorem c5_exactly_one_entry (fs : FS) (sb : String) (pl : List OrderEntry)
    (h : String) (shuffle : List OrderEntry → List OrderEntry)
    (hnd : (plHashes pl).Nodup) (hart : fs.artifacts.Nodup)
    (hsh : ∀ l, List.Perm (shuffle l) l) :
    (h ∈ plHashes pl → addToPlaylist fs h sb (.wellFormed pl) = pl) ∧
    (plHashes (addToPlaylist fs h sb (.wellFormed pl))).Nodup ∧
    (plHashes (addToPlaylist fs h sb (.wellFormed pl))).count h = 1 ∧
    (∀ g ∈ fs.artifacts, (plHashes (rebuildPlaylist shuffle fs sb)).count g = 1) := by
  refine ⟨addToPlaylist_eq_of_mem fs h sb pl,
    nodup_plHashes_addToPlaylist fs h sb pl hnd, ?_, ?_⟩
  · by_cases hm : h ∈ plHashes pl
    · rw [addToPlaylist_eq_of_mem fs h sb pl hm]
      exact List.count_eq_one_of_mem hnd hm
    · rw [count_plHashes_addToPlaylist_of_not_mem fs h sb pl hm,
        List.count_eq_zero_of_not_mem hm]
  · intro g hg
    rw [(plHashes_rebuild_perm shuffle fs sb hsh).count_eq]
    exact List.count_eq_one_of_mem hart hg

theorem c5_exactly_one_entry_witness :
    (plHashes [({ hash := "a", sort_key := 0 } : OrderEntry)]).Nodup ∧
    fsW.artifacts.Nodup ∧
    (("a" ∈ plHashes [({ hash := "a", sort_key := 0 } : OrderEntry)] →
       addToPlaylist fsW "a" "transfer_time"
         (.wellFormed [{ hash := "a", sort_key := 0 }])
         = [{ hash := "a", sort_key := 0 }]) ∧
     (plHashes (addToPlaylist fsW "a" "transfer_time"
         (.wellFormed [{ hash := "a", sort_key := 0 }]))).Nodup ∧
     (plHashes (addToPlaylist fsW "a" "transfer_time"
         (.wellFormed [{ hash := "a", sort_key := 0 }]))).count "a" = 1 ∧
     (∀ g ∈ fsW.artifacts,
       (plHashes (rebuildPlaylist id fsW "transfer_time")).count g = 1)) :=
  ⟨by decide, by decide,
   c5_exactly_one_entry fsW "transfer_time" [{ hash := "a", sort_key := 0 }]
     "a" id (by decide) (by decide) (fun l => List.Perm.refl l)⟩

/-!
### Claim C6: recency policy orders by last-write time, newest first
-/

theorem mtime_order_of_sorted (fs : FS) (L : List OrderEntry)
    (hs : L.Pairwise keyGE) (hk : ∀ e ∈ L, e.sort_key = fs.mtime e.hash) :
    ∀ i j (hi : i < L.length) (hj : j < L.length),
      fs.mtime (L.get ⟨j, hj⟩).hash < fs.mtime (L.get ⟨i, hi⟩).hash → i < j := by
  intro i j hi hj hlt
  by_contra hij
  push_neg at hij
  rcases lt_or_eq_of_le hij with hji | heq
  · have hp := List.pairwise_iff_get.mp hs ⟨j, hj⟩ ⟨i, hi⟩ hji
    unfold keyGE at hp
    rw [hk _ (L.get_mem _ _), hk _ (L.get_mem _ _)] at hp
    exact absurd hlt (not_lt_of_le hp)
  · subst heq
    exact lt_irrefl _ hlt

theorem addToPlaylist_transfer_sorted_keyed (fs : FS) (h : String)
    (pl : List OrderEntry) (hsorted : pl.Pairwise keyGE)
    (hkeys : ∀ e ∈ pl, e.sort_key = fs.mtime e.hash) (hh : h ∈ fs.artifacts) :
    (addToPlaylist fs h "transfer_time" (.wellFormed pl)).Pairwise keyGE ∧
    (∀ e ∈ addToPlaylist fs h "transfer_time" (.wellFormed pl),
      e.sort_key = fs.mtime e.hash) := by
  have hkey : getSortKey fs h "transfer_time" = fs.mtime h := by
    unfold getSortKey
    rw [if_pos rfl, if_pos hh]
  by_cases hm : h ∈ plHashes pl
  · rw [addToPlaylist_eq_of_mem fs h "transfer_time" pl hm]
    exact ⟨hsorted, hkeys⟩
  · have hform : addToPlaylist fs h "transfer_time" (.wellFormed pl)
        = sortDesc (pl ++ [⟨h, getSortKey fs h "transfer_time"⟩]) := by
      unfold addToPlaylist
      simp only [loadedPlaylist]
      rw [if_neg (fun hc => hm ((any_hash_iff pl h).mp hc))]
      rfl
    rw [hform]
    refine ⟨sortDesc_sorted _, ?_⟩
    intro e he
    have := (sortDesc_perm _).mem_iff.mp he
    rcases List.mem_append.mp this with hold | hnew
    · exact hkeys e hold
    · rcases List.mem_singleton.mp hnew with rfl
      simpa using hkey

/-- C6: for the recency (`transfer_time`) policy, an entry with a strictly
later artifact last-write time appears strictly earlier in the persisted
order — both after an `Insert` into a well-kept playlist (entries sorted with
stored keys equal to their artifacts' mtimes) and after a `Rebuild`. -/
theorem c6_recency_order (fs : FS) (h : String) (pl : List OrderEntry)
    (shuffle : List OrderEntry → List OrderEntry)
    (hsorted : pl.Pairwise keyGE)
    (hkeys : ∀ e ∈ pl, e.sort_key = fs.mtime e.hash)
    (hh : h ∈ fs.artifacts)
    (hsh : ∀ l, List.Perm (shuffle l) l) :
    (∀ i j (hi : i < (addToPlaylist fs h "transfer_time" (.wellFormed pl)).length)
       (hj : j < (addToPlaylist fs h "transfer_time" (.wellFormed pl)).length),
       fs.mtime ((addToPlaylist fs h "transfer_time" (.wellFormed pl)).get
           ⟨j, hj⟩).hash
         < fs.mtime ((addToPlaylist fs h "transfer_time" (.wellFormed pl)).get
           ⟨i, hi⟩).hash → i < j) ∧
    (∀ i j (hi : i < (rebuildPlaylist shuffle fs "transfer_time").length)
       (hj : j < (rebuildPlaylist shuffle fs "transfer_time").length),
       fs.mtime ((rebuildPlaylist shuffle fs "transfer_time").get ⟨j, hj⟩).hash
         < fs.mtime ((rebuildPlaylist shuffle fs "transfer_time").get ⟨i, hi⟩).hash
         → i < j) := by
  obtain ⟨hs', hk'⟩ := addToPlaylist_transfer_sorted_keyed fs h pl hsorted hkeys hh
  refine ⟨mtime_order_of_sorted fs _ hs' hk', ?_⟩
  have hsr : (rebuildPlaylist shuffle fs "transfer_time").Pairwise keyGE := by
    unfold rebuildPlaylist
    rw [if_neg (by decide : ¬ ("transfer_time" = "random"))]
    exact sortDesc_sorted _
  have hkr : ∀ e ∈ rebuildPlaylist shuffle fs "transfer_time",
      e.sort_key = fs.mtime e.hash := by
    intro e he
    obtain ⟨hmem, hkey⟩ :=
      rebuild_entry_spec shuffle fs "transfer_time" hsh e he
    rw [hkey]
    unfold getSortKey
    rw [if_pos rfl, if_pos hmem]
  exact mtime_order_of_sorted fs _ hsr hkr

/-- Concrete filesystem with two artifacts, "a" written after "b". -/
def fsC6 : FS :=
  { artifacts := ["a", "b"], mtime := fun h => if h = "a" then 2 else 1,
    exifDate := fun _ => none, pyHash := fun _ => 0 }

theorem c6_recency_order_witness :
    (([] : List OrderEntry).Pairwise keyGE) ∧
    (∀ e ∈ ([] : List OrderEntry), e.sort_key = fsC6.mtime e.hash) ∧
    ("a" ∈ fsC6.artifacts) ∧
    ((∀ i j (hi : i < (addToPlaylist fsC6 "a" "transfer_time" (.wellFormed [])).length)
        (hj : j < (addToPlaylist fsC6 "a" "transfer_time" (.wellFormed [])).length),
        fsC6.mtime ((addToPlaylist fsC6 "a" "transfer_time" (.wellFormed [])).get
            ⟨j, hj⟩).hash
          < fsC6.mtime ((addToPlaylist fsC6 "a" "transfer_time" (.wellFormed [])).get
            ⟨i, hi⟩).hash → i < j) ∧
     (∀ i j (hi : i < (rebuildPlaylist id fsC6 "transfer_time").length)
        (hj : j < (rebuildPlaylist id fsC6 "transfer_time").length),
        fsC6.mtime ((rebuildPlaylist id fsC6 "transfer_time").get ⟨j, hj⟩).hash
          < fsC6.mtime ((rebuildPlaylist id fsC6 "transfer_time").get ⟨i, hi⟩).hash
          → i < j)) :=
  ⟨List.Pairwise.nil, by simp, by decide,
   c6_recency_order fsC6 "a" [] id List.Pairwise.nil (by simp) (by decide)
     (fun l => List.Perm.refl l)⟩

/-!
### Claims C7 and C10: cursor safety and cursor-position invariant
-/

theorem clampIndex_images (b : Bool) (s : Slideshow) :
    (clampIndex b s).images = s.images := by
  unfold clampIndex
  split_ifs <;> rfl

theorem clampIndex_inv (b : Bool) (s : Slideshow) (h0 : 0 ≤ s.current_index) :
    CursorInv (clampIndex b s) := by
  unfold clampIndex CursorInv
  by_cases h1 : s.images.length = 0
  · rw [if_pos h1]
    have himg : s.images = [] := List.length_eq_zero.mp h1
    dsimp only
    exact ⟨fun _ => rfl, fun hne => absurd himg hne⟩
  · rw [if_neg h1]
    have hlen : 0 < s.images.length := Nat.pos_of_ne_zero h1
    have hne : s.images ≠ [] := fun hc => h1 (by rw [hc]; rfl)
    by_cases h2 : s.current_index ≥ (s.images.length : Int)
    · rw [if_pos h2]
      dsimp only
      exact ⟨fun hc => absurd hc hne, fun _ => ⟨le_refl 0, by exact_mod_cast hlen⟩⟩
    · rw [if_neg h2]
      push_neg at h2
      by_cases hb : b
      · rw [if_pos hb]
        dsimp only
        refine ⟨fun hc => absurd hc hne, fun _ => ⟨?_, ?_⟩⟩
        · refine le_min h0 ?_
          have : 1 ≤ s.images.length := hlen
          omega
        · have hmle : min s.current_index ((s.images.length : Int) - 1)
              ≤ (s.images.length : Int) - 1 := min_le_right _ _
          omega
      · rw [if_neg hb]
        exact ⟨fun hc => absurd hc hne, fun _ => ⟨h0, h2⟩⟩

theorem refreshImageList_inv (shuffle : List OrderEntry → List OrderEntry)
    (fs : FS) (file : FileState (List OrderEntry)) (s : Slideshow)
    (h0 : 0 ≤ s.current_index) :
    CursorInv (refreshImageList shuffle fs file s) :=
  clampIndex_inv true _ h0

theorem refreshImageList_mem_artifacts (shuffle : List OrderEntry → List OrderEntry)
    (fs : FS) (file : FileState (List OrderEntry)) (s : Slideshow) {p : String}
    (hp : p ∈ (refreshImageList shuffle fs file s).images) : p ∈ fs.artifacts := by
  unfold refreshImageList at hp
  rw [clampIndex_images] at hp
  have := List.of_mem_filter hp
  simpa using this

/-- When the invariant holds and the list is non-empty, the cursor reads a
genuine element of the list. -/
theorem getD_mem_of_inv (s : Slideshow) (hinv : CursorInv s)
    (hne : s.images ≠ []) :
    s.images.getD s.current_index.toNat "" ∈ s.images := by
  obtain ⟨hlo, hhi⟩ := hinv.2 hne
  have hlt : s.current_index.toNat < s.images.length := by omega
  rw [List.getD_eq_getElem _ _ hlt]
  exact List.getElem_mem hlt

/-- C7: `Current()` never returns a dangling path: whatever it returns as
`some p` is an artifact that exists on disk (either the entry the cursor was
on, or an entry of the freshly refreshed, existence-filtered list). -/
theorem c7_current_never_dangling (shuffle : List OrderEntry → List OrderEntry)
    (fs : FS) (file : FileState (List OrderEntry)) (s : Slideshow)
    (h0 : 0 ≤ s.current_index) :
    ∀ p, (getCurrentImage shuffle fs file s).1 = some p → p ∈ fs.artifacts := by
  intro p hp
  unfold getCurrentImage at hp
  by_cases hemp : s.images = []
  · rw [if_pos hemp] at hp; cases hp
  · rw [if_neg hemp] at hp
    simp only [] at hp
    by_cases hex : s.images.getD s.current_index.toNat "" ∈ fs.artifacts
    · rw [if_pos hex] at hp
      cases hp
      exact hex
    · rw [if_neg hex] at hp
      by_cases hemp' : (refreshImageList shuffle fs file s).images = []
      · rw [if_pos hemp'] at hp; cases hp
      · rw [if_neg hemp'] at hp
        cases hp
        refine refreshImageList_mem_artifacts shuffle fs file s ?_
        exact getD_mem_of_inv _ (refreshImageList_inv shuffle fs file s h0) hemp'

/-- Concrete state for the C7 witness: the cursor points at "b", whose file
has been deleted out-of-band; the playlist holds "a", which exists. -/
def ssW : Slideshow :=
  { images := ["b"], current_index := 0, loop := true, sort_by := "transfer_time" }

/-- Concrete playlist file with the single existing artifact "a". -/
def fileW : FileState (List OrderEntry) :=
  .wellFormed [{ hash := "a", sort_key := 0 }]

theorem c7_current_never_dangling_witness :
    0 ≤ ssW.current_index ∧
    (getCurrentImage id fsW fileW ssW).1 = some "a" ∧
    "a" ∈ fsW.artifacts :=
  ⟨by decide, by decide,
   c7_current_never_dangling id fsW fileW ssW (by decide) "a" (by decide)⟩

theorem getCurrentImage_inv (shuffle : List OrderEntry → List OrderEntry)
    (fs : FS) (file : FileState (List OrderEntry)) (s : Slideshow)
    (hinv : CursorInv s) : CursorInv (getCurrentImage shuffle fs file s).2 := by
  unfold getCurrentImage
  by_cases hemp : s.images = []
  · rw [if_pos hemp]; exact hinv
  · rw [if_neg hemp]
    simp only []
    by_cases hex : s.images.getD s.current_index.toNat "" ∈ fs.artifacts
    · rw [if_pos hex]; exact hinv
    · rw [if_neg hex]
      have h0 : 0 ≤ s.current_index := (hinv.2 hemp).1
      have hinv' := refreshImageList_inv shuffle fs file s h0
      by_cases hemp' : (refreshImageList shuffle fs file s).images = []
      · rw [if_pos hemp']; exact hinv'
      · rw [if_neg hemp']; exact hinv'

theorem nextImage_inv (shuffle : List OrderEntry → List OrderEntry)
    (fs : FS) (file : FileState (List OrderEntry)) (s : Slideshow)
    (hinv : CursorInv s) : CursorInv (nextImage shuffle fs file s).2 := by
  unfold nextImage
  by_cases hemp : s.images = []
  · rw [if_pos hemp]; exact hinv
  · rw [if_neg hemp]
    obtain ⟨h0, hlt⟩ := hinv.2 hemp
    have hlen : 0 < s.images.length := List.length_pos.mpr hemp
    apply getCurrentImage_inv
    split_ifs with h1 h2
    · refine ⟨fun hc => absurd hc hemp, fun _ => ⟨le_refl 0, ?_⟩⟩
      dsimp only
      exact_mod_cast hlen
    · refine ⟨fun hc => absurd hc hemp, fun _ => ⟨?_, ?_⟩⟩ <;> dsimp only <;> omega
    · refine ⟨fun hc => absurd hc hemp, fun _ => ⟨?_, ?_⟩⟩ <;> dsimp only
      · omega
      · dsimp only at h1
        omega

theorem previousImage_inv (shuffle : List OrderEntry → List OrderEntry)
    (fs : FS) (file : FileState (List OrderEntry)) (s : Slideshow)
    (hinv : CursorInv s) : CursorInv (previousImage shuffle fs file s).2 := by
  unfold previousImage
  by_cases hemp : s.images = []
  · rw [if_pos hemp]; exact hinv
  · rw [if_neg hemp]
    obtain ⟨h0, hlt⟩ := hinv.2 hemp
    have hlen : 0 < s.images.length := List.length_pos.mpr hemp
    apply getCurrentImage_inv
    split_ifs with h1 h2
    · refine ⟨fun hc => absurd hc hemp, fun _ => ⟨?_, ?_⟩⟩ <;> dsimp only <;> omega
    · refine ⟨fun hc => absurd hc hemp, fun _ => ⟨le_refl 0, ?_⟩⟩
      dsimp only
      exact_mod_cast hlen
    · refine ⟨fun hc => absurd hc hemp, fun _ => ⟨?_, ?_⟩⟩ <;> dsimp only
      · dsimp only at h1
        omega
      · omega

theorem slideshowRefresh_inv (shuffle : List OrderEntry → List OrderEntry)
    (fs : FS) (file : FileState (List OrderEntry)) (s : Slideshow)
    (hinv : CursorInv s) : CursorInv (slideshowRefresh shuffle fs file s) := by
  have h0 : 0 ≤ s.current_index := by
    by_cases hemp : s.images = []
    · rw [hinv.1 hemp]
    · exact (hinv.2 hemp).1
  exact clampIndex_inv false _ h0

/-- C10: the cursor-position invariant (`0 ≤ current_index < len(images)` on
a non-empty list, `current_index = 0` on an empty one) is preserved by
`next_image`, `previous_image` and `refresh`, in looping and non-looping mode
alike, so list indexing inside the accessors never goes out of range. -/
theorem c10_cursor_index_invariant (shuffle : List OrderEntry → List OrderEntry)
    (fs : FS) (file : FileState (List OrderEntry)) (s : Slideshow)
    (hinv : CursorInv s) :
    CursorInv (nextImage shuffle fs file s).2 ∧
    CursorInv (previousImage shuffle fs file s).2 ∧
    CursorInv (slideshowRefresh shuffle fs file s) :=
  ⟨nextImage_inv shuffle fs file s hinv,
   previousImage_inv shuffle fs file s hinv,
   slideshowRefresh_inv shuffle fs file s hinv⟩

theorem c10_cursor_index_invariant_witness :
    CursorInv ssW ∧
    (CursorInv (nextImage id fsW fileW ssW).2 ∧
     CursorInv (previousImage id fsW fileW ssW).2 ∧
     CursorInv (slideshowRefresh id fsW fileW ssW)) :=
  ⟨by constructor <;> decide,
   c10_cursor_index_invariant id fsW fileW ssW (by constructor <;> decide)⟩


/-!
### Claim C8: resize-and-crop geometry
-/

theorem fdiv_two_nonpos_bounds (x : Int) (hx : x ≤ 0) :
    x ≤ x.fdiv 2 ∧ x.fdiv 2 ≤ 0 := by
  have h1 : 2 * (x.fdiv 2) + x.fmod 2 = x := Int.fdiv_add_fmod x 2
  have h2 : 0 ≤ x.fmod 2 := Int.fmod_nonneg' x (by norm_num)
  have h3 : x.fmod 2 < 2 := Int.fmod_lt_of_pos x (by norm_num)
  omega

theorem scaledSize_fits (tw th w h : Nat)
    (htw : 0 < tw) (hth : 0 < th) (hw : 0 < w) (hh : 0 < h) :
    (scaledSize tw th w h).1 ≤ tw ∧ (scaledSize tw th w h).2 ≤ th ∧
    ((scaledSize tw th w h).1 = tw ∨ (scaledSize tw th w h).2 = th) := by
  unfold scaledSize
  by_cases hwide : w * th > tw * h
  · rw [if_pos hwide]
    refine ⟨le_refl tw, ?_, Or.inl rfl⟩
    have : tw * h / w < th := by
      rw [Nat.div_lt_iff_lt_mul hw]
      calc tw * h < w * th := hwide
        _ = th * w := Nat.mul_comm w th
    exact le_of_lt this
  · rw [if_neg hwide]
    refine ⟨?_, le_refl th, Or.inr rfl⟩
    have h1 : th * w ≤ tw * h := by
      calc th * w = w * th := Nat.mul_comm th w
        _ ≤ tw * h := not_lt.mp hwide
    calc th * w / h ≤ tw * h / h := Nat.div_le_div_right h1
      _ = tw := by rw [Nat.mul_div_assoc tw (dvd_refl h), Nat.div_self hh, Nat.mul_one]

theorem cropStep_spec (tw th nw nh : Nat) (hnw : nw ≤ tw) (hnh : nh ≤ th) :
    (cropStep tw th nw nh).scaled_w = nw ∧
    (cropStep tw th nw nh).scaled_h = nh ∧
    (cropStep tw th nw nh).out_w = tw ∧
    (cropStep tw th nw nh).out_h = th ∧
    cropCovers (cropStep tw th nw nh) := by
  unfold cropStep
  by_cases hc : nw ≠ tw ∨ nh ≠ th
  · rw [if_pos hc]
    have hl := fdiv_two_nonpos_bounds ((nw : Int) - tw) (by omega)
    have ht := fdiv_two_nonpos_bounds ((nh : Int) - th) (by omega)
    dsimp only [cropCovers]
    refine ⟨rfl, rfl, by omega, by omega, hl.2, ht.2, by omega, by omega⟩
  · rw [if_neg hc]
    push_neg at hc
    dsimp only [cropCovers]
    exact ⟨rfl, rfl, by rw [hc.1], by rw [hc.2], trivial⟩

/-- C8 counterexample: with the default 1024×600 target, a 2000×1000 input
scales to 1024×512 (fitting within the target), and the centered "crop" box
is `(0, -44, 1024, 556)`: its top edge lies outside the scaled image, so the
result is not a crop of a region contained in the scaled image (PIL pads the
out-of-range rows with black instead). -/
theorem c8_counterexample :
    (resizeWithAspectRatio 1024 600 2000 1000).crop = some (0, -44, 1024, 556) ∧
    ¬ cropContained (resizeWithAspectRatio 1024 600 2000 1000) := by
  constructor
  · decide
  · decide

/-- C8 (amended): the scaling step preserves aspect ratio but fits the image
entirely *within* the target footprint (one dimension matches the target
exactly and neither exceeds it), and the centered target-sized crop box
*covers* the whole scaled image — extending past it in the non-fitted
dimension — so the output is the scaled image centered on an exactly
target-sized canvas with padded borders, not a crop of a region contained in
the scaled image. The output pixel dimensions always equal the configured
target exactly. -/
theorem c8_resize_contain_pad (tw th w h : Nat)
    (htw : 0 < tw) (hth : 0 < th) (hw : 0 < w) (hh : 0 < h) :
    ((resizeWithAspectRatio tw th w h).scaled_w = tw ∨
      (resizeWithAspectRatio tw th w h).scaled_h = th) ∧
    (resizeWithAspectRatio tw th w h).scaled_w ≤ tw ∧
    (resizeWithAspectRatio tw th w h).scaled_h ≤ th ∧
    (resizeWithAspectRatio tw th w h).out_w = tw ∧
    (resizeWithAspectRatio tw th w h).out_h = th ∧
    cropCovers (resizeWithAspectRatio tw th w h) := by
  obtain ⟨h1, h2, h3⟩ := scaledSize_fits tw th w h htw hth hw hh
  obtain ⟨hs1, hs2, ho1, ho2, hcov⟩ :=
    cropStep_spec tw th (scaledSize tw th w h).1 (scaledSize tw th w h).2 h1 h2
  unfold resizeWithAspectRatio
  refine ⟨?_, ?_, ?_, ho1, ho2, hcov⟩
  · rcases h3 with hl | hr
    · exact Or.inl (by rw [hs1, hl])
    · exact Or.inr (by rw [hs2, hr])
  · rw [hs1]; exact h1
  · rw [hs2]; exact h2

theorem c8_resize_contain_pad_witness :
    (0 < 1024 ∧ 0 < 600 ∧ 0 < 2000 ∧ 0 < 1000) ∧
    (((resizeWithAspectRatio 1024 600 2000 1000).scaled_w = 1024 ∨
      (resizeWithAspectRatio 1024 600 2000 1000).scaled_h = 600) ∧
     (resizeWithAspectRatio 1024 600 2000 1000).scaled_w ≤ 1024 ∧
     (resizeWithAspectRatio 1024 600 2000 1000).scaled_h ≤ 600 ∧
     (resizeWithAspectRatio 1024 600 2000 1000).out_w = 1024 ∧
     (resizeWithAspectRatio 1024 600 2000 1000).out_h = 600 ∧
     cropCovers (resizeWithAspectRatio 1024 600 2000 1000)) :=
  ⟨⟨by decide, by decide, by decide, by decide⟩,
   c8_resize_contain_pad 1024 600 2000 1000
     (by decide) (by decide) (by decide) (by decide)⟩

/-!
### Claim C9: a malformed metadata file is overwritten with only the batch
-/

theorem mem_keys_upsert (t : List (String × MetaRecord)) (k : String)
    (v : MetaRecord) (k' : String) :
    (k' ∈ (upsert t k v).map (·.1)) ↔ k' ∈ t.map (·.1) ∨ k' = k := by
  unfold upsert
  by_cases hc : t.any (fun p => p.1 = k) = true
  · rw [if_pos hc]
    have hk : k ∈ t.map (·.1) := by
      obtain ⟨p, hp, hpk⟩ := List.any_eq_true.mp hc
      simp only [decide_eq_true_eq] at hpk
      exact List.mem_map.mpr ⟨p, hp, hpk⟩
    rw [List.map_map]
    have hmaps : t.map ((·.1) ∘ fun p => if p.1 = k then (k, v) else p)
        = t.map (·.1) := by
      refine List.map_congr_left ?_
      intro p _
      by_cases hpk : p.1 = k
      · simp [Function.comp, hpk]
      · simp [Function.comp, hpk]
    rw [hmaps]
    constructor
    · exact Or.inl
    · rintro (hm | rfl)
      · exact hm
      · exact hk
  · rw [if_neg hc]
    simp

theorem processBatchItem_eq (env : Env) (arts : List String)
    (tbl : List (String × MetaRecord)) (i : BatchItem) :
    processBatchItem env (arts, tbl) i
      = ((processImageDigest i.digest arts).1,
         upsert tbl i.digest
           { sender := i.uploader, subject := ""
             date := i.exifDate.getD env.now, exifDate := i.exifDate }) := by
  by_cases hm : i.digest ∈ arts <;>
    simp [processBatchItem, processImageDigest, hm]

theorem keys_foldl_batch (env : Env) (batch : List BatchItem)
    (arts : List String) (tbl : List (String × MetaRecord)) (k : String) :
    (k ∈ ((batch.foldl (processBatchItem env) (arts, tbl)).2.map (·.1)))
      ↔ k ∈ tbl.map (·.1) ∨ k ∈ batch.map (·.digest) := by
  induction batch generalizing arts tbl with
  | nil => simp
  | cons i rest ih =>
    simp only [List.foldl_cons, List.map_cons, List.mem_cons]
    rw [processBatchItem_eq, ih, mem_keys_upsert]
    tauto

/-- C9: when `metadata.json` exists but fails to parse at the start of a
batch run, the run proceeds with the empty in-memory table, and the
end-of-batch persist leaves a well-formed file whose keys are exactly the
current batch's digests — every previously stored record for any other
identity is dropped. -/
theorem c9_metadata_loss (env : Env) (batch : List BatchItem) (st : SysState)
    (hmal : st.metaFile = FileState.malformed) :
    loadedTable st.metaFile = [] ∧
    (runBatch env batch st).state.metaFile
      = FileState.wellFormed (batchTables env batch st).2 ∧
    ∀ k, k ∈ (batchTables env batch st).2.map (·.1)
      ↔ k ∈ batch.map (·.digest) := by
  refine ⟨by rw [hmal]; rfl, rfl, ?_⟩
  intro k
  unfold batchTables
  rw [keys_foldl_batch, hmal]
  simp [loadedTable]

/-- Concrete state whose metadata file exists but is unparsable, with one
previously stored identity lost to a later batch. -/
def stMalW : SysState :=
  { artifacts := []
    metaFile := .malformed
    playlists := { transfer_time := [], creation_time := [], random := [] } }

theorem c9_metadata_loss_witness :
    stMalW.metaFile = FileState.malformed ∧
    (loadedTable stMalW.metaFile = [] ∧
     (runBatch envW [⟨"n1", "u", none⟩] stMalW).state.metaFile
       = FileState.wellFormed (batchTables envW [⟨"n1", "u", none⟩] stMalW).2 ∧
     ∀ k, k ∈ (batchTables envW [⟨"n1", "u", none⟩] stMalW).2.map (·.1)
       ↔ k ∈ ([⟨"n1", "u", none⟩] : List BatchItem).map (·.digest)) :=
  ⟨rfl, c9_metadata_loss envW [⟨"n1", "u", none⟩] stMalW rfl⟩
